import Mathlib

/-!
Verification of the backtesting-platform core against its specification.

The development shallowly embeds the Python core in Lean 4:

* `app/backtester/engine.py` — the simulation loop (`BacktestEngine.run_backtest`)
  and the stop-loss / take-profit predicates;
* `app/strategies/*.py` — the signal layer (moving-average crossover,
  Bollinger band breakout, MACD, RSI mean reversion) and
  `BaseStrategy.prepare_data`;
* `app/backtester/metrics.py` — the performance metrics engine.

Prices, cash and commission rates are modelled as rationals.  Pandas NaN
cells (rolling-window warm-up, sample standard deviation of fewer than two
observations, 0/0) are modelled as `Option`/a dedicated `PFloat.nan`
constructor; the IEEE rule that every comparison with NaN is false is
reproduced where the source relies on it.  Division of a rational by zero
follows the Lean convention `x / 0 = 0`; the source never divides by zero
on the inputs quantified by the theorems below.  The real square root used
by pandas `std` is modelled by `ratSqrt`, which is exact on perfect
squares (every concrete input below only takes square roots of perfect
squares), and several definitions are additionally parameterised over the
square-root function where the stated property is independent of it.
-/

namespace BTP

/-! ## Simulation engine (`app/backtester/engine.py`) -/

/-- One signal-annotated bar as consumed by `run_backtest`: the engine reads
only the `close` column and `row.get("signal", 0)`.  A missing `signal`
column is modelled by `none`. -/
structure Bar where
  close : ℚ
  signal : Option ℤ
deriving DecidableEq

/-- Trade record appended by the simulation loop. -/
inductive TradeAction where
  | buy
  | sell
deriving DecidableEq

structure Trade where
  action : TradeAction
  price : ℚ
  quantity : ℕ
  value : ℚ
  commission : ℚ
  pnl : Option ℚ := none
deriving DecidableEq

/-- One per-bar equity snapshot (`equity_curve.append({...})`). -/
structure Snapshot where
  portfolioValue : ℚ
  cash : ℚ
  holdingsValue : ℚ
  ret : ℚ
deriving DecidableEq

/-- The mutable portfolio state of the loop: `portfolio["cash"]` and
`portfolio["holdings"]`. -/
structure EngineState where
  cash : ℚ
  holdings : ℕ
deriving DecidableEq

/-- Python `int(x)` on a float: truncation toward zero. -/
def pyInt (x : ℚ) : ℤ :=
  if 0 ≤ x then ⌊x⌋ else ⌈x⌉

/-- One iteration of the `for i, (date, row) in enumerate(signal_data.iterrows())`
loop body, up to (and excluding) the equity-snapshot bookkeeping: executes
the BUY branch (`signal == 1 and holdings == 0`), the SELL branch
(`signal == -1 and holdings > 0`), or nothing, returning the new state and
the trade appended, if any. -/
def stepBar (commission : ℚ) (st : EngineState) (b : Bar) : EngineState × Option Trade :=
  let signal := b.signal.getD 0
  if signal = 1 ∧ st.holdings = 0 then
    let availableCash := st.cash * (95 / 100)
    let sharesToBuy := pyInt (availableCash / (b.close * (1 + commission)))
    if 0 < sharesToBuy then
      let cost := (sharesToBuy : ℚ) * b.close * (1 + commission)
      ({ cash := st.cash - cost, holdings := sharesToBuy.toNat },
        some { action := .buy, price := b.close, quantity := sharesToBuy.toNat,
               value := cost, commission := cost * commission })
    else
      (st, none)
  else if signal = -1 ∧ 0 < st.holdings then
    let proceeds := (st.holdings : ℚ) * b.close * (1 - commission)
    ({ cash := st.cash + proceeds, holdings := 0 },
      some { action := .sell, price := b.close, quantity := st.holdings,
             value := proceeds, commission := proceeds * commission })
  else
    (st, none)

/-- The whole forward pass: threads the state and the previous portfolio
value through the bars, collecting trades and equity snapshots in order. -/
def runBars (commission : ℚ) : EngineState → ℚ → List Bar → List Trade × List Snapshot
  | _, _, [] => ([], [])
  | st, prev, b :: rest =>
    let step := stepBar commission st b
    let pv := step.1.cash + (step.1.holdings : ℚ) * b.close
    let snap : Snapshot :=
      { portfolioValue := pv, cash := step.1.cash,
        holdingsValue := (step.1.holdings : ℚ) * b.close,
        ret := (pv - prev) / prev }
    let restRun := runBars commission step.1 pv rest
    (match step.2 with
     | some t => t :: restRun.1
     | none => restRun.1,
     snap :: restRun.2)

/-- The second pass over the trade list: every SELL immediately following a
BUY receives `pnl = (sell_price - buy_price) * quantity`.  The extra
argument carries the previous trade (`trades[i-1]`), `none` at the head. -/
def assignPnl : Option Trade → List Trade → List Trade
  | _, [] => []
  | prevOpt, t :: rest =>
    let t' :=
      match prevOpt with
      | some prev =>
        if t.action = .sell ∧ prev.action = .buy then
          { t with pnl := some ((t.price - prev.price) * (t.quantity : ℚ)) }
        else t
      | none => t
    t' :: assignPnl (some t) rest

/-- The dictionary returned by `run_backtest`.  `finalValue` is the loop
variable `current_portfolio_value` after the last iteration; on an empty
bar series the source raises (the name is unbound), modelled by `none`. -/
structure BacktestResult where
  snapshots : List Snapshot
  trades : List Trade
  finalValue : Option ℚ
  initialCapital : ℚ

def runBacktest (initialCapital commission : ℚ) (bars : List Bar) : BacktestResult :=
  let r := runBars commission { cash := initialCapital, holdings := 0 } initialCapital bars
  { snapshots := r.2
    trades := assignPnl none r.1
    finalValue := (r.2.getLast?).map Snapshot.portfolioValue
    initialCapital := initialCapital }

/-- `BacktestEngine.check_stop_loss`: any `position_type` other than the
exact string `"long"` falls into the short-position branch. -/
def check_stop_loss (stopLossPct entryPrice currentPrice : ℚ) (positionType : String) : Bool :=
  if positionType = "long" then
    decide (stopLossPct ≤ (entryPrice - currentPrice) / entryPrice)
  else
    decide (stopLossPct ≤ (currentPrice - entryPrice) / entryPrice)

/-- `BacktestEngine.check_take_profit`, with the same branching. -/
def check_take_profit (takeProfitPct entryPrice currentPrice : ℚ) (positionType : String) : Bool :=
  if positionType = "long" then
    decide (takeProfitPct ≤ (currentPrice - entryPrice) / entryPrice)
  else
    decide (takeProfitPct ≤ (entryPrice - currentPrice) / entryPrice)

/-! ## Signal layer (`app/strategies/*.py`)

The strategies only read the `close` column, so a bar series is a
`List ℚ` of closes here.  Each `data.loc[mask1, "signal"] = 1` followed by
`data.loc[mask2, "signal"] = -1` pair of vectorised assignments is
modelled by `maskSignal`: the second (SELL) mask overwrites the first. -/

/-- Value of the `signal` column after the two masked assignments: start at
0, set 1 where the buy mask holds, then set -1 where the sell mask holds
(the later assignment wins on overlap). -/
def maskSignal (buyMask sellMask : Bool) : ℤ :=
  if sellMask then -1 else if buyMask then 1 else 0

/-- Arithmetic mean of a list of rationals (`Series.mean`). -/
def listMean (xs : List ℚ) : ℚ :=
  xs.sum / (xs.length : ℚ)

/-- The rolling window of width `w` ending at index `i`. -/
def windowAt (w : ℕ) (xs : List ℚ) (i : ℕ) : List ℚ :=
  (xs.take (i + 1)).drop (i + 1 - w)

/-- `Series.rolling(window=w).mean()` at index `i`: defined (non-NaN) once
`i + 1 ≥ w ≥ 1`, else NaN. -/
def rollingMeanAt (w : ℕ) (xs : List ℚ) (i : ℕ) : Option ℚ :=
  if 1 ≤ w ∧ w ≤ i + 1 then some (listMean (windowAt w xs i)) else none

/-- Sample variance with `ddof = 1` of a list (denominator `length - 1`). -/
def sampleVar (xs : List ℚ) : ℚ :=
  ((xs.map fun x => (x - listMean xs) ^ 2).sum) / ((xs.length : ℚ) - 1)

/-- Rational stand-in for the real square root: exact on ratios of perfect
squares (in particular on 0), which covers every concrete input used
below.  Definitions whose stated property holds for any interpretation of
the square root take the function as a parameter instead. -/
def ratSqrt (q : ℚ) : ℚ :=
  if q.num < 0 then 0 else (Nat.sqrt q.num.natAbs : ℚ) / (Nat.sqrt q.den : ℚ)

/-- `Series.rolling(window=w).std()` at index `i` (pandas default
`ddof = 1`): NaN during warm-up and for `w < 2` (0/0), else the square
root of the sample variance of the window. -/
def rollingStdAt (sqrtFn : ℚ → ℚ) (w : ℕ) (xs : List ℚ) (i : ℕ) : Option ℚ :=
  if 2 ≤ w ∧ w ≤ i + 1 then some (sqrtFn (sampleVar (windowAt w xs i))) else none

/-! ### Moving-average crossover (`moving_average.py`) -/

/-- One surviving row of `MovingAverageCrossover.generate_signals` after
`dropna()` (both moving averages defined). -/
structure CrossRow where
  close : ℚ
  maFast : ℚ
  maSlow : ℚ
  signal : ℤ
deriving DecidableEq

/-- `MovingAverageCrossover.generate_signals` on the close column: annotate
each row with `ma_fast` and `ma_slow`, apply the buy mask
`ma_fast > ma_slow` then the sell mask `ma_fast < ma_slow`, and drop the
rows where either average is NaN (on those rows both masks are false, so
dropping them after the masked assignments equals dropping them here). -/
def maCrossoverSignals (fastPeriod slowPeriod : ℕ) (closes : List ℚ) : List CrossRow :=
  (List.range closes.length).filterMap fun i =>
    match rollingMeanAt fastPeriod closes i, rollingMeanAt slowPeriod closes i with
    | some f, some s =>
      some { close := closes.getD i 0, maFast := f, maSlow := s,
             signal := maskSignal (decide (s < f)) (decide (f < s)) }
    | _, _ => none

/-! ### Bollinger band breakout (`bollinger_bands.py`) -/

/-- One surviving row of `BollingerBandStrategy.generate_signals` after
`dropna()`. -/
structure BollRow where
  close : ℚ
  ma : ℚ
  std : ℚ
  upper : ℚ
  lower : ℚ
  signal : ℤ
deriving DecidableEq

/-- `BollingerBandStrategy.generate_signals`: bands
`ma ± std * std_dev`, buy mask `close ≤ lower_band`, then sell mask
`close ≥ upper_band`, then `dropna()` (a row survives iff `ma` and `std`
are both defined). -/
def bollingerSignals (sqrtFn : ℚ → ℚ) (period : ℕ) (stdDev : ℚ) (closes : List ℚ) :
    List BollRow :=
  (List.range closes.length).filterMap fun i =>
    match rollingMeanAt period closes i, rollingStdAt sqrtFn period closes i with
    | some m, some sd =>
      let c := closes.getD i 0
      let up := m + sd * stdDev
      let lo := m - sd * stdDev
      some { close := c, ma := m, std := sd, upper := up, lower := lo,
             signal := maskSignal (decide (c ≤ lo)) (decide (up ≤ c)) }
    | _, _ => none

/-! ### MACD (`macd_strategy.py`) -/

/-- One fold step of the adjusted exponential weighted mean: carries the
weighted sum and the weight total. -/
def ewmStep (alpha : ℚ) (acc : ℚ × ℚ) (x : ℚ) : ℚ × ℚ :=
  (acc.1 * (1 - alpha) + x, acc.2 * (1 - alpha) + 1)

/-- `Series.ewm(span=s).mean()` with the pandas defaults (`adjust=True`):
entry `t` is the weighted mean of `x_0 .. x_t` with weights
`(1-alpha)^(t-j)`, `alpha = 2 / (s + 1)`. -/
def ewmMean (span : ℕ) (xs : List ℚ) : List ℚ :=
  let alpha : ℚ := 2 / ((span : ℚ) + 1)
  (List.range xs.length).map fun t =>
    let acc := (xs.take (t + 1)).foldl (ewmStep alpha) (0, 0)
    acc.1 / acc.2

/-- The MACD line `ewm(fast) - ewm(slow)` of a close series. -/
def macdLineOf (fastPeriod slowPeriod : ℕ) (closes : List ℚ) : List ℚ :=
  List.zipWith (fun a b => a - b) (ewmMean fastPeriod closes) (ewmMean slowPeriod closes)

/-- The MACD signal line `macd_line.ewm(span=signal_period).mean()`. -/
def macdSignalLineOf (fastPeriod slowPeriod signalPeriod : ℕ) (closes : List ℚ) : List ℚ :=
  ewmMean signalPeriod (macdLineOf fastPeriod slowPeriod closes)

/-- One row of `MACDStrategy.generate_signals` (this strategy performs no
`dropna()`, so rows align with the input bars). -/
structure MacdRow where
  close : ℚ
  macd : ℚ
  macdSignal : ℚ
  histogram : ℚ
  signal : ℤ
deriving DecidableEq

/-- `MACDStrategy.generate_signals`: buy mask
`(macd > signal) & (macd.shift(1) <= signal.shift(1))`, sell mask
`(macd < signal) & (macd.shift(1) >= signal.shift(1))`.  At row 0 the
shifted values are NaN and every NaN comparison is false, so neither mask
can hold there. -/
def macdSignals (fastPeriod slowPeriod signalPeriod : ℕ) (closes : List ℚ) : List MacdRow :=
  let line := macdLineOf fastPeriod slowPeriod closes
  let sig := macdSignalLineOf fastPeriod slowPeriod signalPeriod closes
  (List.range closes.length).map fun i =>
    let buyMask := decide (1 ≤ i) &&
      (decide (sig.getD i 0 < line.getD i 0) && decide (line.getD (i - 1) 0 ≤ sig.getD (i - 1) 0))
    let sellMask := decide (1 ≤ i) &&
      (decide (line.getD i 0 < sig.getD i 0) && decide (sig.getD (i - 1) 0 ≤ line.getD (i - 1) 0))
    { close := closes.getD i 0, macd := line.getD i 0, macdSignal := sig.getD i 0,
      histogram := line.getD i 0 - sig.getD i 0,
      signal := maskSignal buyMask sellMask }

/-! ### RSI mean reversion (`rsi_strategy.py`) -/

/-- The series `delta.where(delta > 0, 0)` for `delta = prices.diff()`:
the NaN at index 0 fails the `> 0` test, so `where` replaces it by 0. -/
def gains (closes : List ℚ) : List ℚ :=
  (List.range closes.length).map fun i =>
    if i = 0 then 0
    else
      let d := closes.getD i 0 - closes.getD (i - 1) 0
      if 0 < d then d else 0

/-- The series `-delta.where(delta < 0, 0)`, likewise 0 at index 0. -/
def losses (closes : List ℚ) : List ℚ :=
  (List.range closes.length).map fun i =>
    if i = 0 then 0
    else
      let d := closes.getD i 0 - closes.getD (i - 1) 0
      if d < 0 then -d else 0

/-- `RSIMeanReversion.calculate_rsi` at index `i`:
`100 - 100 / (1 + gain/loss)` over the rolling means of `gains` and
`losses`.  Float semantics of the division: `gain/0 = inf` for positive
`gain`, giving RSI exactly 100, and `0/0 = NaN`, giving a NaN RSI
(dropped later by `dropna()`).  Warm-up rows are NaN as usual. -/
def rsiAt (period : ℕ) (closes : List ℚ) (i : ℕ) : Option ℚ :=
  match rollingMeanAt period (gains closes) i, rollingMeanAt period (losses closes) i with
  | some g, some l =>
    if l = 0 then (if g = 0 then none else some 100)
    else some (100 - 100 / (1 + g / l))
  | _, _ => none

/-- One surviving row of `RSIMeanReversion.generate_signals` after
`dropna()` (RSI defined). -/
structure RsiRow where
  close : ℚ
  rsi : ℚ
  signal : ℤ
deriving DecidableEq

/-- `RSIMeanReversion.generate_signals`: buy mask `rsi < oversold`, then
sell mask `rsi > overbought`, then `dropna()`. -/
def rsiSignals (period : ℕ) (oversold overbought : ℚ) (closes : List ℚ) : List RsiRow :=
  (List.range closes.length).filterMap fun i =>
    (rsiAt period closes i).map fun r =>
      { close := closes.getD i 0, rsi := r,
        signal := maskSignal (decide (r < oversold)) (decide (overbought < r)) }

/-- Modelled from the spec: the up-move at index `i` (`i ≥ 1`) used by the
Wilder RSI, `max(close_i - close_(i-1), 0)`. -/
def wilderGain (closes : List ℚ) (i : ℕ) : ℚ :=
  max (closes.getD i 0 - closes.getD (i - 1) 0) 0

/-- Modelled from the spec: the down-move magnitude at index `i`. -/
def wilderLoss (closes : List ℚ) (i : ℕ) : ℚ :=
  max (closes.getD (i - 1) 0 - closes.getD i 0) 0

/-- Modelled from the spec: the Wilder-smoothed average of a per-bar series
`f` with smoothing period `period`, seeded at index `period` with the
simple average of `f 1 .. f period` and continued with
`avg_i = (avg_(i-1) * (period - 1) + f i) / period`; undefined before
index `period`. -/
def wilderAvg (period : ℕ) (f : ℕ → ℚ) : ℕ → Option ℚ
  | 0 => none
  | i + 1 =>
    if i + 1 < period then none
    else if i + 1 = period then
      some ((((List.range period).map fun j => f (j + 1)).sum) / (period : ℚ))
    else
      (wilderAvg period f i).map fun prev => (prev * ((period : ℚ) - 1) + f (i + 1)) / (period : ℚ)

/-- Modelled from the spec: the Wilder-style RSI over the configured
period, `100 - 100 / (1 + RS)` with `RS` the ratio of the Wilder-smoothed
average gain to the Wilder-smoothed average loss (RSI 100 when the
average loss vanishes with positive average gain). -/
def wilderRsiAt (period : ℕ) (closes : List ℚ) (i : ℕ) : Option ℚ :=
  match wilderAvg period (wilderGain closes) i, wilderAvg period (wilderLoss closes) i with
  | some g, some l =>
    if l = 0 then (if g = 0 then none else some 100)
    else some (100 - 100 / (1 + g / l))
  | _, _ => none

/-! ## Performance metrics engine (`app/backtester/metrics.py`)

The metric accessors operate on the `returns` column of the equity curve
after `dropna()`, modelled as a `List ℚ`.  IEEE special values produced by
pandas/numpy arithmetic are tracked explicitly by `PFloat`, so that the
source comparisons `x == 0` and `x != 0` (both false, respectively true,
when `x` is NaN) can be reproduced exactly. -/

/-- An IEEE-754 double restricted to the values the metrics code can
produce: NaN, the two infinities, or a finite (here rational) number. -/
inductive PFloat where
  | nan
  | inf
  | ninf
  | val (q : ℚ)
deriving DecidableEq

/-- Float multiplication on `PFloat`: NaN absorbs, `inf * 0 = NaN`. -/
def pMul : PFloat → PFloat → PFloat
  | .val a, .val b => .val (a * b)
  | .val a, .inf => if a = 0 then .nan else if 0 < a then .inf else .ninf
  | .inf, .val b => if b = 0 then .nan else if 0 < b then .inf else .ninf
  | .val a, .ninf => if a = 0 then .nan else if 0 < a then .ninf else .inf
  | .ninf, .val b => if b = 0 then .nan else if 0 < b then .ninf else .inf
  | .inf, .inf => .inf
  | .ninf, .ninf => .inf
  | .inf, .ninf => .ninf
  | .ninf, .inf => .ninf
  | _, _ => .nan

/-- Float division on `PFloat`: NaN absorbs, `x / 0` is a signed infinity
for `x ≠ 0` and NaN for `0 / 0`. -/
def pDiv : PFloat → PFloat → PFloat
  | .val a, .val b =>
    if b = 0 then (if a = 0 then .nan else if 0 < a then .inf else .ninf)
    else .val (a / b)
  | .val _, .inf => .val 0
  | .val _, .ninf => .val 0
  | .inf, .val b => if 0 ≤ b then .inf else .ninf
  | .ninf, .val b => if 0 ≤ b then .ninf else .inf
  | _, _ => .nan

/-- Pandas `Series.std()` with the default `ddof = 1`: NaN on fewer than
two observations (0/0), else the square root of the sample variance. -/
def pandasStd (sqrtFn : ℚ → ℚ) (xs : List ℚ) : PFloat :=
  if xs.length < 2 then .nan else .val (sqrtFn (sampleVar xs))

/-- `PerformanceMetrics.calculate_sharpe_ratio` on the cleaned return
series: `0.0` when the series is empty or its standard deviation compares
equal to zero (a NaN standard deviation does not), else
`(mean - rf/252) / std * sqrt(252)`. -/
def sharpeModel (sqrtFn : ℚ → ℚ) (riskFreeRate : ℚ) (returns : List ℚ) : PFloat :=
  if returns.length = 0 ∨ pandasStd sqrtFn returns = .val 0 then .val 0
  else
    let excessReturns := listMean returns - riskFreeRate / 252
    pMul (pDiv (.val excessReturns) (pandasStd sqrtFn returns)) (.val (sqrtFn 252))

/-- `PerformanceMetrics.calculate_sortino_ratio`: `0.0` on an empty
series; with no negative returns `inf` when the mean is positive else
`0`; otherwise `excess / downside_std` unless `downside_std != 0` fails
(a NaN downside deviation passes that test and propagates). -/
def sortinoModel (sqrtFn : ℚ → ℚ) (riskFreeRate : ℚ) (returns : List ℚ) : PFloat :=
  if returns.length = 0 then .val 0
  else
    let negativeReturns := returns.filter fun r => r < 0
    if negativeReturns.length = 0 then
      (if 0 < listMean returns then .inf else .val 0)
    else
      let downsideStd := pMul (pandasStd sqrtFn negativeReturns) (.val (sqrtFn 252))
      let excessReturn := listMean returns * 252 - riskFreeRate
      if downsideStd = .val 0 then .val 0
      else pDiv (.val excessReturn) downsideStd

/-- `PerformanceMetrics.calculate_profit_factor` over the trade log:
gross profit over gross loss, `inf` when the gross loss is zero and the
gross profit positive, else `0`. -/
def profitFactorModel (trades : List Trade) : PFloat :=
  let profits := (trades.filter fun t => 0 < t.pnl.getD 0).map fun t => t.pnl.getD 0
  let lossList := (trades.filter fun t => t.pnl.getD 0 < 0).map fun t => |t.pnl.getD 0|
  let grossProfit := profits.sum
  let grossLoss := lossList.sum
  if grossLoss = 0 then (if 0 < grossProfit then .inf else .val 0)
  else .val (grossProfit / grossLoss)

/-- The first element of a list of rationals, 0 as a placeholder on the
empty list (only applied to nonempty lists). -/
def headD (xs : List ℚ) : ℚ :=
  xs.headD 0

/-- The last element, with the same placeholder convention. -/
def lastD (xs : List ℚ) : ℚ :=
  xs.getLast?.getD 0

/-- Month keys of an equity curve in order of first appearance
(`Series.unique()`). -/
def uniqueFirst (xs : List ℕ) : List ℕ :=
  xs.foldl (fun acc m => if m ∈ acc then acc else acc ++ [m]) []

/-- The portfolio values of the snapshots belonging to month `m`, in curve
order (`equity_curve[equity_curve["month"] == month]["portfolio_value"]`). -/
def monthValues (rows : List (ℕ × ℚ)) (m : ℕ) : List ℚ :=
  (rows.filter fun r => r.1 = m).map Prod.snd

/-- The dictionary entry `calculate_monthly_returns` produces for one
month: defined only when the month holds more than one snapshot, in which
case it is `(last - first) / first * 100`. -/
def monthEntry (rows : List (ℕ × ℚ)) (m : ℕ) : Option ℚ :=
  let vals := monthValues rows m
  if 2 ≤ vals.length then some ((lastD vals - headD vals) / headD vals * 100) else none

/-- `PerformanceMetrics.calculate_monthly_returns`: the equity curve is a
list of (calendar-month key, portfolio value) pairs in time order; for
each distinct month, in order of first appearance, the month maps to its
`(last - first) / first * 100` return when it has at least two snapshots
and is omitted entirely otherwise. -/
def monthlyReturns (rows : List (ℕ × ℚ)) : List (ℕ × ℚ) :=
  (uniqueFirst (rows.map Prod.fst)).filterMap fun m =>
    (monthEntry rows m).map fun v => (m, v)

/-! ## Shared pre-processing (`base_strategy.py`) -/

/-- The required-column names checked by `BaseStrategy.prepare_data`,
capitalised exactly as in the source. -/
def requiredColumns : List String :=
  ["Open", "High", "Low", "Close", "Volume"]

/-- The lowercase column names the core contract requires of callers. -/
def lowercaseColumns : List String :=
  ["open", "high", "low", "close", "volume"]

/-- `BaseStrategy.prepare_data` restricted to what it observes, the column
names: raise `ValueError` on the first required column missing from the
frame, otherwise succeed (the subsequent `fillna` calls never raise). -/
def prepare_data (columns : List String) : Except String (List String) :=
  match requiredColumns.find? fun c => !(columns.contains c) with
  | some c => .error ("Missing required column: " ++ c)
  | none => .ok columns

/-! ## Helper lemmas -/

/-- A bar whose signal reads as 0 (HOLD, or a missing signal column)
leaves the portfolio state untouched and records no trade. -/
theorem stepBar_hold (c : ℚ) (st : EngineState) (b : Bar)
    (hb : b.signal.getD 0 = 0) : stepBar c st b = (st, none) := by
  simp [stepBar, hb]

/-- On an all-HOLD suffix the forward pass records no trades and every
snapshot carries the entry cash as both cash and portfolio value. -/
theorem runBars_hold (c cap : ℚ) (bars : List Bar)
    (hsig : ∀ b ∈ bars, b.signal.getD 0 = 0) :
    ∀ prev, (runBars c { cash := cap, holdings := 0 } prev bars).1 = [] ∧
      ∀ s ∈ (runBars c { cash := cap, holdings := 0 } prev bars).2,
        s.portfolioValue = cap ∧ s.cash = cap := by
  induction bars with
  | nil => intro prev; simp [runBars]
  | cons b rest ih =>
    intro prev
    have hb := stepBar_hold c { cash := cap, holdings := 0 } b (hsig b (by simp))
    have ihr := ih (fun x hx => hsig x (List.mem_cons_of_mem _ hx)) cap
    simp only [runBars, hb, Nat.cast_zero, zero_mul, add_zero]
    refine ⟨ihr.1, ?_⟩
    intro s hs
    rcases List.mem_cons.mp hs with rfl | hs
    · simp
    · exact ihr.2 s (by simpa using hs)

/-- The forward pass emits exactly one snapshot per bar. -/
theorem runBars_snapshots_length (c : ℚ) (st : EngineState) (prev : ℚ) (bars : List Bar) :
    (runBars c st prev bars).2.length = bars.length := by
  induction bars generalizing st prev with
  | nil => simp [runBars]
  | cons b rest ih => simp [runBars, ih]

/-- The step function never drives the cash balance negative when the bar
price is positive and the commission rate lies in `[0, 1]`. -/
theorem stepBar_cash_nonneg (c : ℚ) (st : EngineState) (b : Bar)
    (hcash : 0 ≤ st.cash) (hclose : 0 < b.close) (hc0 : 0 ≤ c) (hc1 : c ≤ 1) :
    0 ≤ (stepBar c st b).1.cash := by
  have hdenom : 0 < b.close * (1 + c) := by positivity
  rw [stepBar]
  dsimp only
  split
  · split
    · rename_i hpos
      simp only
      have harg : 0 ≤ st.cash * (95 / 100) / (b.close * (1 + c)) := by positivity
      have hfloor : (pyInt (st.cash * (95 / 100) / (b.close * (1 + c))) : ℚ) ≤
          st.cash * (95 / 100) / (b.close * (1 + c)) := by
        rw [pyInt, if_pos harg]
        exact_mod_cast Int.floor_le _
      have hcost : (pyInt (st.cash * (95 / 100) / (b.close * (1 + c))) : ℚ) *
          (b.close * (1 + c)) ≤ st.cash * (95 / 100) := by
        calc (pyInt (st.cash * (95 / 100) / (b.close * (1 + c))) : ℚ) * (b.close * (1 + c)) ≤
            st.cash * (95 / 100) / (b.close * (1 + c)) * (b.close * (1 + c)) := by
              exact mul_le_mul_of_nonneg_right hfloor (le_of_lt hdenom)
          _ = st.cash * (95 / 100) := div_mul_cancel₀ _ (ne_of_gt hdenom)
      have : st.cash * (95 / 100) ≤ st.cash := by nlinarith
      nlinarith [hcost]
    · simpa using hcash
  · split
    · simp only
      have : 0 ≤ (st.holdings : ℚ) * b.close * (1 - c) := by
        have h1 : (0:ℚ) ≤ (st.holdings : ℚ) := by positivity
        have h2 : (0:ℚ) ≤ 1 - c := by linarith
        positivity
      linarith
    · simpa using hcash

/-- Cash invariant of the whole forward pass. -/
theorem runBars_cash_nonneg (c : ℚ) (bars : List Bar) (hc0 : 0 ≤ c) (hc1 : c ≤ 1)
    (hclose : ∀ b ∈ bars, 0 < b.close) :
    ∀ st prev, 0 ≤ st.cash → ∀ s ∈ (runBars c st prev bars).2, 0 ≤ s.cash := by
  induction bars with
  | nil => intro st prev _ s hs; simp [runBars] at hs
  | cons b rest ih =>
    intro st prev hcash s hs
    have hstep := stepBar_cash_nonneg c st b hcash (hclose b (by simp)) hc0 hc1
    rw [runBars] at hs
    rcases List.mem_cons.mp hs with rfl | hs
    · simpa using hstep
    · exact ih (fun x hx => hclose x (List.mem_cons_of_mem _ hx)) _ _ hstep s hs

/-- Characterisation of the masked signal assignments: the value is 1 iff
the buy mask held and the sell mask did not. -/
theorem maskSignal_eq_one (b s : Bool) : maskSignal b s = 1 ↔ (b = true ∧ s = false) := by
  cases b <;> cases s <;> decide

/-- The value is -1 iff the sell mask held (it overwrites the buy mask). -/
theorem maskSignal_eq_negOne (b s : Bool) : maskSignal b s = -1 ↔ s = true := by
  cases b <;> cases s <;> decide

/-- Membership in the folded first-appearance list. -/
theorem mem_uniqueFirst_aux (xs : List ℕ) :
    ∀ acc m, (m ∈ xs.foldl (fun acc m => if m ∈ acc then acc else acc ++ [m]) acc ↔
      m ∈ acc ∨ m ∈ xs) := by
  induction xs with
  | nil => intro acc m; simp
  | cons a l ih =>
    intro acc m
    simp only [List.foldl_cons]
    by_cases h : a ∈ acc
    · rw [if_pos h, ih]
      constructor
      · rintro (hm | hm)
        · exact Or.inl hm
        · exact Or.inr (List.mem_cons_of_mem _ hm)
      · rintro (hm | hm)
        · exact Or.inl hm
        · rcases List.mem_cons.mp hm with rfl | hm
          · exact Or.inl h
          · exact Or.inr hm
    · rw [if_neg h, ih]
      simp only [List.mem_append, List.mem_cons, List.mem_singleton]
      tauto

/-- `uniqueFirst` preserves membership. -/
theorem mem_uniqueFirst (xs : List ℕ) (m : ℕ) : m ∈ uniqueFirst xs ↔ m ∈ xs := by
  simpa using mem_uniqueFirst_aux xs [] m

/-- Membership in the monthly-return dictionary, reduced to the per-month
entry function. -/
theorem mem_monthlyReturns (rows : List (ℕ × ℚ)) (m : ℕ) (v : ℚ) :
    (m, v) ∈ monthlyReturns rows ↔ m ∈ rows.map Prod.fst ∧ monthEntry rows m = some v := by
  simp only [monthlyReturns, List.mem_filterMap, Option.map_eq_some', mem_uniqueFirst]
  constructor
  · rintro ⟨a, ha, w, hw, heq⟩
    cases heq
    exact ⟨ha, hw⟩
  · rintro ⟨hm, hv⟩
    exact ⟨m, hm, v, hv, rfl⟩

/-! ## Claim theorems -/

/-- C1: on a nonempty bar series whose every signal is 0 (all-HOLD),
`run_backtest` with any initial capital and commission rate produces an
empty trade list, every equity snapshot carries the initial capital as its
portfolio value, and the final portfolio value equals the initial capital
exactly.  (The spec routes the empty bar series to input validation
before the simulation, hence the nonemptiness hypothesis.) -/
theorem runBacktest_all_hold (cap c : ℚ) (bars : List Bar) (hne : bars ≠ [])
    (hsig : ∀ b ∈ bars, b.signal = some 0) :
    (runBacktest cap c bars).trades = [] ∧
      (∀ s ∈ (runBacktest cap c bars).snapshots, s.portfolioValue = cap) ∧
      (runBacktest cap c bars).finalValue = some cap := by
  have hold := runBars_hold c cap bars (fun b hb => by rw [hsig b hb]; rfl) cap
  have hlen := runBars_snapshots_length c { cash := cap, holdings := 0 } cap bars
  have hsne : (runBars c { cash := cap, holdings := 0 } cap bars).2 ≠ [] := by
    intro h
    rw [h] at hlen
    exact hne (List.eq_nil_of_length_eq_zero hlen.symm)
  refine ⟨?_, ?_, ?_⟩
  · rw [runBacktest]
    simp only [hold.1]
    rfl
  · intro s hs
    exact (hold.2 s hs).1
  · rw [runBacktest]
    simp only
    rw [List.getLast?_eq_getLast_of_ne_nil hsne, Option.map_some']
    exact congrArg some (hold.2 _ (List.getLast_mem hsne)).1

/-- Witness for C1 at a concrete two-bar all-HOLD series. -/
theorem runBacktest_all_hold_witness :
    ([⟨10, some 0⟩, ⟨12, some 0⟩] : List Bar) ≠ [] ∧
      (runBacktest 1000 (1 / 1000) [⟨10, some 0⟩, ⟨12, some 0⟩]).trades = [] ∧
      (∀ s ∈ (runBacktest 1000 (1 / 1000) [⟨10, some 0⟩, ⟨12, some 0⟩]).snapshots,
        s.portfolioValue = 1000) ∧
      (runBacktest 1000 (1 / 1000) [⟨10, some 0⟩, ⟨12, some 0⟩]).finalValue = some 1000 :=
  ⟨by with_unfolding_all decide,
    runBacktest_all_hold 1000 (1 / 1000) _ (by with_unfolding_all decide)
      (by with_unfolding_all decide)⟩

/-- C9: on a nonempty bar series whose annotated frame lacks a `signal`
column (`row.get("signal", 0)` defaults every bar to HOLD), `run_backtest`
executes no trades and returns the initial capital as the final portfolio
value. -/
theorem runBacktest_missing_signal_column (cap c : ℚ) (bars : List Bar) (hne : bars ≠ [])
    (hsig : ∀ b ∈ bars, b.signal = none) :
    (runBacktest cap c bars).trades = [] ∧
      (runBacktest cap c bars).finalValue = some cap := by
  have hold := runBars_hold c cap bars (fun b hb => by rw [hsig b hb]; rfl) cap
  have hlen := runBars_snapshots_length c { cash := cap, holdings := 0 } cap bars
  have hsne : (runBars c { cash := cap, holdings := 0 } cap bars).2 ≠ [] := by
    intro h
    rw [h] at hlen
    exact hne (List.eq_nil_of_length_eq_zero hlen.symm)
  refine ⟨?_, ?_⟩
  · rw [runBacktest]
    simp only [hold.1]
    rfl
  · rw [runBacktest]
    simp only
    rw [List.getLast?_eq_getLast_of_ne_nil hsne, Option.map_some']
    exact congrArg some (hold.2 _ (List.getLast_mem hsne)).1

/-- Witness for C9 at a concrete series with no signal column. -/
theorem runBacktest_missing_signal_column_witness :
    ([⟨10, none⟩, ⟨12, none⟩] : List Bar) ≠ [] ∧
      (runBacktest 500 (1 / 100) [⟨10, none⟩, ⟨12, none⟩]).trades = [] ∧
      (runBacktest 500 (1 / 100) [⟨10, none⟩, ⟨12, none⟩]).finalValue = some 500 :=
  ⟨by with_unfolding_all decide,
    runBacktest_missing_signal_column 500 (1 / 100) _ (by with_unfolding_all decide)
      (by with_unfolding_all decide)⟩

/-- C2 (amended): with strictly positive closes, a non-negative initial
capital and a commission rate in `[0, 1]`, the cash balance is
non-negative after every bar — the whole-share BUY quantity never debits
more cash than is held, and a SELL only credits cash.  (The original
claim allowed every non-negative commission rate; a rate above 1 makes
SELL proceeds negative, see the counterexample.) -/
theorem runBacktest_cash_nonneg (cap c : ℚ) (bars : List Bar)
    (hcap : 0 ≤ cap) (hc0 : 0 ≤ c) (hc1 : c ≤ 1)
    (hclose : ∀ b ∈ bars, 0 < b.close) :
    ∀ s ∈ (runBacktest cap c bars).snapshots, 0 ≤ s.cash := by
  intro s hs
  exact runBars_cash_nonneg c bars hc0 hc1 hclose { cash := cap, holdings := 0 } cap hcap s hs

/-- Witness for C2 at a concrete buy-then-sell series. -/
theorem runBacktest_cash_nonneg_witness :
    (0:ℚ) ≤ 100 ∧
      ∀ s ∈ (runBacktest 100 (1 / 10) [⟨1, some 1⟩, ⟨1, some (-1)⟩]).snapshots, 0 ≤ s.cash :=
  ⟨by with_unfolding_all decide,
    runBacktest_cash_nonneg 100 (1 / 10) _ (by with_unfolding_all decide)
      (by with_unfolding_all decide) (by with_unfolding_all decide)
      (by with_unfolding_all decide)⟩

/-- Counterexample to C2 as stated: with commission rate 2 (non-negative),
initial capital 100 and all closes equal to 1 (strictly positive), the
SELL on the second bar credits negative proceeds
`31 * 1 * (1 - 2) = -31` and the cash balance ends at `-24 < 0`. -/
theorem runBacktest_cash_negative_example :
    ((runBacktest 100 2 [⟨1, some 1⟩, ⟨1, some (-1)⟩]).snapshots.getD 1
      { portfolioValue := 0, cash := 0, holdingsValue := 0, ret := 0 }).cash < 0 := by
  with_unfolding_all decide

/-- Evaluation of the BUY branch on a flat-start state. -/
theorem stepBar_buy (c cap : ℚ) (b : Bar) (hb : b.signal = some 1)
    (hq : 0 < pyInt (cap * (95 / 100) / (b.close * (1 + c)))) :
    stepBar c { cash := cap, holdings := 0 } b =
      ({ cash := cap - (pyInt (cap * (95 / 100) / (b.close * (1 + c))) : ℚ) * b.close * (1 + c),
         holdings := (pyInt (cap * (95 / 100) / (b.close * (1 + c)))).toNat },
        some { action := .buy, price := b.close,
               quantity := (pyInt (cap * (95 / 100) / (b.close * (1 + c)))).toNat,
               value := (pyInt (cap * (95 / 100) / (b.close * (1 + c))) : ℚ) * b.close * (1 + c),
               commission := (pyInt (cap * (95 / 100) / (b.close * (1 + c))) : ℚ) * b.close *
                 (1 + c) * c }) := by
  rw [stepBar]
  dsimp only
  rw [hb]
  rw [if_pos ⟨rfl, rfl⟩, if_pos hq]

/-- Evaluation of the SELL branch on an open position. -/
theorem stepBar_sell (c cash : ℚ) (h : ℕ) (b : Bar) (hb : b.signal = some (-1)) (hh : 0 < h) :
    stepBar c { cash := cash, holdings := h } b =
      ({ cash := cash + (h : ℚ) * b.close * (1 - c), holdings := 0 },
        some { action := .sell, price := b.close, quantity := h,
               value := (h : ℚ) * b.close * (1 - c),
               commission := (h : ℚ) * b.close * (1 - c) * c }) := by
  rw [stepBar]
  dsimp only
  rw [hb]
  rw [if_neg (by simp), if_pos ⟨rfl, hh⟩]

/-- C4: a BUY at close `p` immediately followed by a SELL of the same
quantity at the same close `p` decreases the portfolio value by exactly
the sum of the two recorded commission charges, namely
`2 * q * p * c` for the engine-computed quantity
`q = int(0.95 * capital / (p * (1 + c)))`: the buy commission
`q*p*(1+c)*c` and the sell commission `q*p*(1-c)*c` add up to `2*q*p*c`,
which is also the cash lost across the round trip. -/
theorem runBacktest_round_trip_commission (cap c p : ℚ) (hp : 0 < p) (hc : 0 ≤ c)
    (hq : 1 ≤ pyInt (cap * (95 / 100) / (p * (1 + c)))) :
    (runBacktest cap c [⟨p, some 1⟩, ⟨p, some (-1)⟩]).trades.map Trade.quantity =
        [(pyInt (cap * (95 / 100) / (p * (1 + c)))).toNat,
          (pyInt (cap * (95 / 100) / (p * (1 + c)))).toNat] ∧
      ((runBacktest cap c [⟨p, some 1⟩, ⟨p, some (-1)⟩]).trades.map Trade.commission).sum =
        2 * (pyInt (cap * (95 / 100) / (p * (1 + c))) : ℚ) * p * c ∧
      (runBacktest cap c [⟨p, some 1⟩, ⟨p, some (-1)⟩]).finalValue =
        some (cap - 2 * (pyInt (cap * (95 / 100) / (p * (1 + c))) : ℚ) * p * c) := by
  have hq0 : (0:ℤ) < pyInt (cap * (95 / 100) / (p * (1 + c))) := lt_of_lt_of_le one_pos hq
  have hqt : 0 < (pyInt (cap * (95 / 100) / (p * (1 + c)))).toNat := by omega
  have hcast : (((pyInt (cap * (95 / 100) / (p * (1 + c)))).toNat : ℚ)) =
      (pyInt (cap * (95 / 100) / (p * (1 + c))) : ℚ) := by
    exact_mod_cast congrArg (fun z : ℤ => (z : ℚ)) (Int.toNat_of_nonneg (le_of_lt hq0))
  have e1 := stepBar_buy c cap ⟨p, some 1⟩ rfl hq0
  have e2 := stepBar_sell c
    (cap - (pyInt (cap * (95 / 100) / (p * (1 + c))) : ℚ) * p * (1 + c))
    (pyInt (cap * (95 / 100) / (p * (1 + c)))).toNat ⟨p, some (-1)⟩ rfl hqt
  simp only [runBacktest, runBars, e1, e2]
  simp only [assignPnl, and_self, if_true]
  refine ⟨rfl, ?_, ?_⟩
  · simp only [List.map_cons, List.map_nil, List.sum_cons, List.sum_nil]
    rw [hcast]
    ring
  · simp only [List.getLast?, Option.map_some', Option.some.injEq]
    rw [hcast]
    push_cast
    ring_nf
    simp [List.getLast]

/-- Witness for C4 at capital 10000, commission 0.001 and price 10, where
the engine buys 949 shares and pays 18.98 of commission round trip. -/
theorem runBacktest_round_trip_commission_witness :
    (0:ℚ) < 10 ∧ (0:ℚ) ≤ 1 / 1000 ∧
      1 ≤ pyInt (10000 * (95 / 100) / (10 * (1 + 1 / 1000))) ∧
      ((runBacktest 10000 (1 / 1000)
          [⟨10, some 1⟩, ⟨10, some (-1)⟩]).trades.map Trade.commission).sum =
        2 * (pyInt (10000 * (95 / 100) / (10 * (1 + 1 / 1000))) : ℚ) * 10 * (1 / 1000) ∧
      (runBacktest 10000 (1 / 1000) [⟨10, some 1⟩, ⟨10, some (-1)⟩]).finalValue =
        some (10000 -
          2 * (pyInt (10000 * (95 / 100) / (10 * (1 + 1 / 1000))) : ℚ) * 10 * (1 / 1000)) :=
  ⟨by with_unfolding_all decide, by with_unfolding_all decide, by with_unfolding_all decide,
    (runBacktest_round_trip_commission 10000 (1 / 1000) 10 (by with_unfolding_all decide)
      (by with_unfolding_all decide) (by with_unfolding_all decide)).2.1,
    (runBacktest_round_trip_commission 10000 (1 / 1000) 10 (by with_unfolding_all decide)
      (by with_unfolding_all decide) (by with_unfolding_all decide)).2.2⟩

/-- C3 (code behaviour at the failing input): on a return series with
exactly one observation, `calculate_sharpe_ratio` returns NaN — the
sample standard deviation with `ddof = 1` of a single observation is NaN,
which passes the `std == 0` guard — and on a series with exactly one
negative observation `calculate_sortino_ratio` likewise returns NaN
through the `downside_std != 0` test.  The spec requires the fallback
value 0 and forbids NaN, so this is a defect of the code.  Both values
are independent of the square-root interpretation, `ratSqrt` is only a
concrete instance. -/
theorem sharpe_sortino_nan_on_single_observation :
    sharpeModel ratSqrt (1 / 50) [1 / 10] = PFloat.nan ∧
      sortinoModel ratSqrt (1 / 50) [1 / 5, -1 / 10] = PFloat.nan := by
  with_unfolding_all decide

/-- C7: for each calendar month with at least two equity snapshots the
monthly-return dictionary holds exactly the value
`(last - first) / first * 100` over that month's snapshot values in curve
order, and a month with fewer than two snapshots has no entry at all. -/
theorem monthlyReturns_spec (rows : List (ℕ × ℚ)) (m : ℕ) :
    (2 ≤ (monthValues rows m).length →
        ((m, (lastD (monthValues rows m) - headD (monthValues rows m)) /
            headD (monthValues rows m) * 100) ∈ monthlyReturns rows ∧
          ∀ x, (m, x) ∈ monthlyReturns rows →
            x = (lastD (monthValues rows m) - headD (monthValues rows m)) /
              headD (monthValues rows m) * 100)) ∧
      ((monthValues rows m).length < 2 → ∀ x, (m, x) ∉ monthlyReturns rows) := by
  constructor
  · intro h2
    have hmem : m ∈ rows.map Prod.fst := by
      have hne : (rows.filter fun r => r.1 = m) ≠ [] := by
        intro hnil
        rw [monthValues, hnil] at h2
        simp at h2
      obtain ⟨r, hr⟩ := List.exists_mem_of_ne_nil _ hne
      have hrf := List.mem_filter.mp hr
      exact List.mem_map.mpr ⟨r, hrf.1, by simpa using hrf.2⟩
    have hentry : monthEntry rows m =
        some ((lastD (monthValues rows m) - headD (monthValues rows m)) /
          headD (monthValues rows m) * 100) := by
      rw [monthEntry]
      rw [if_pos h2]
    refine ⟨(mem_monthlyReturns rows m _).mpr ⟨hmem, hentry⟩, ?_⟩
    intro x hx
    have h := (mem_monthlyReturns rows m x).mp hx
    have h2x := h.2
    rw [hentry] at h2x
    exact (Option.some.inj h2x).symm
  · intro hlt x hx
    have h := (mem_monthlyReturns rows m x).mp hx
    have h2x := h.2
    rw [monthEntry] at h2x
    rw [if_neg (by omega)] at h2x
    exact Option.noConfusion h2x

/-- Witness for C7: month 1 has two snapshots (100 then 110, a 10 percent
return) and month 2 a single one, which is omitted. -/
theorem monthlyReturns_spec_witness :
    (2 ≤ (monthValues [(1, 100), (1, 110), (2, 5)] 1).length ∧
        (1, (lastD (monthValues [(1, 100), (1, 110), (2, 5)] 1) -
            headD (monthValues [(1, 100), (1, 110), (2, 5)] 1)) /
            headD (monthValues [(1, 100), (1, 110), (2, 5)] 1) * 100) ∈
          monthlyReturns [(1, 100), (1, 110), (2, 5)]) ∧
      ((monthValues [(1, 100), (1, 110), (2, 5)] 2).length < 2 ∧
        ∀ x, (2, x) ∉ monthlyReturns [(1, 100), (1, 110), (2, 5)]) :=
  ⟨⟨by with_unfolding_all decide,
      ((monthlyReturns_spec [(1, 100), (1, 110), (2, 5)] 1).1
        (by with_unfolding_all decide)).1⟩,
    ⟨by with_unfolding_all decide,
      (monthlyReturns_spec [(1, 100), (1, 110), (2, 5)] 2).2
        (by with_unfolding_all decide)⟩⟩

/-- C8: every `position_type` string other than the exact lowercase
`"long"` takes the short-position branch of `check_stop_loss` (the test
`(current - entry) / entry ≥ stop_loss_pct`) and of `check_take_profit`
(the mirror test), instead of being rejected. -/
theorem check_risk_short_default (slp tpp entry current : ℚ) (pt : String)
    (h : pt ≠ "long") :
    check_stop_loss slp entry current pt = decide (slp ≤ (current - entry) / entry) ∧
      check_take_profit tpp entry current pt = decide (tpp ≤ (entry - current) / entry) := by
  rw [check_stop_loss, check_take_profit, if_neg h, if_neg h]
  exact ⟨rfl, rfl⟩

/-- Witness for C8 at the capitalised string `"LONG"`. -/
theorem check_risk_short_default_witness :
    ("LONG" : String) ≠ "long" ∧
      check_stop_loss (5 / 100) 100 103 "LONG" = decide ((5:ℚ) / 100 ≤ (103 - 100) / 100) ∧
      check_take_profit (15 / 100) 100 103 "LONG" =
        decide ((15:ℚ) / 100 ≤ (100 - 103) / 100) :=
  ⟨by with_unfolding_all decide,
    check_risk_short_default (5 / 100) (15 / 100) 100 103 "LONG"
      (by with_unfolding_all decide)⟩

/-- C10: `BaseStrategy.prepare_data` checks for the capitalised column
names, so it raises `ValueError` on the lowercase-normalised columns the
core contract requires of callers, and succeeds exactly when all
capitalised names are present. -/
theorem prepare_data_capitalized_only (cols : List String)
    (hall : ∀ col ∈ requiredColumns, col ∈ cols) :
    prepare_data lowercaseColumns = .error "Missing required column: Open" ∧
      prepare_data cols = .ok cols := by
  constructor
  · with_unfolding_all rfl
  · rw [prepare_data]
    have hfind : requiredColumns.find? (fun col => !(cols.contains col)) = none := by
      rw [List.find?_eq_none]
      intro col hcol
      have hmem : cols.contains col = true := List.elem_iff.mpr (hall col hcol)
      simp [hmem, hall col hcol]
    rw [hfind]

/-- Witness for C10 at the capitalised column list itself. -/
theorem prepare_data_capitalized_only_witness :
    (∀ col ∈ requiredColumns, col ∈ requiredColumns) ∧
      prepare_data lowercaseColumns = .error "Missing required column: Open" ∧
      prepare_data requiredColumns = .ok requiredColumns :=
  ⟨fun _ hcol => hcol, prepare_data_capitalized_only requiredColumns fun _ hcol => hcol⟩

/-- The two masked assignments, characterised at the propositional level:
the row reads -1 iff the sell mask held, and 1 iff the buy mask held and
the sell mask did not (the sell assignment overwrites the buy one). -/
theorem maskSignal_cases (bp sp : Prop) [Decidable bp] [Decidable sp] :
    (maskSignal (decide bp) (decide sp) = -1 ↔ sp) ∧
      (maskSignal (decide bp) (decide sp) = 1 ↔ bp ∧ ¬ sp) := by
  by_cases h1 : bp <;> by_cases h2 : sp <;> simp [maskSignal, h1, h2]

/-- C5 (amended): on every surviving bar the crossover strategy reads +1
exactly when the fast moving average exceeds the slow one and -1 exactly
when it is below (level-based); the band-breakout strategy reads -1
exactly when close is at or above the upper band and +1 exactly when
close is at or below the lower band and not also at or above the upper
band (when both band conditions hold at once, possible only with zero
rolling deviation, the SELL assignment overwrites the BUY one); the
convergence/divergence strategy reads +1 exactly on bars where the MACD
line is above the signal line having been at or below it on the prior
bar, and -1 exactly on the mirror cross (edge-triggered). -/
theorem signal_semantics_of_strategies :
    (∀ pf ps closes, ∀ r ∈ maCrossoverSignals pf ps closes,
        (r.signal = 1 ↔ r.maSlow < r.maFast) ∧ (r.signal = -1 ↔ r.maFast < r.maSlow)) ∧
      (∀ sq w k closes, ∀ r ∈ bollingerSignals sq w k closes,
        (r.signal = -1 ↔ r.upper ≤ r.close) ∧
          (r.signal = 1 ↔ r.close ≤ r.lower ∧ ¬ r.upper ≤ r.close)) ∧
      (∀ pf ps psig closes i, i < (macdSignals pf ps psig closes).length →
        ((((macdSignals pf ps psig closes).getD i ⟨0, 0, 0, 0, 0⟩).signal = 1 ↔
            1 ≤ i ∧
              (macdSignalLineOf pf ps psig closes).getD i 0 <
                (macdLineOf pf ps closes).getD i 0 ∧
              (macdLineOf pf ps closes).getD (i - 1) 0 ≤
                (macdSignalLineOf pf ps psig closes).getD (i - 1) 0) ∧
          (((macdSignals pf ps psig closes).getD i ⟨0, 0, 0, 0, 0⟩).signal = -1 ↔
            1 ≤ i ∧
              (macdLineOf pf ps closes).getD i 0 <
                (macdSignalLineOf pf ps psig closes).getD i 0 ∧
              (macdSignalLineOf pf ps psig closes).getD (i - 1) 0 ≤
                (macdLineOf pf ps closes).getD (i - 1) 0))) := by
  refine ⟨?_, ?_, ?_⟩
  · intro pf ps closes r hr
    simp only [maCrossoverSignals, List.mem_filterMap] at hr
    obtain ⟨i, -, heq⟩ := hr
    rcases hf : rollingMeanAt pf closes i with _ | f <;>
      rcases hs : rollingMeanAt ps closes i with _ | s <;>
      rw [hf, hs] at heq
    · exact Option.noConfusion heq
    · exact Option.noConfusion heq
    · exact Option.noConfusion heq
    · cases Option.some.inj heq
      refine ⟨?_, (maskSignal_cases _ _).1⟩
      rw [(maskSignal_cases (s < f) (f < s)).2]
      exact ⟨fun h => h.1, fun h => ⟨h, asymm h⟩⟩
  · intro sq w k closes r hr
    simp only [bollingerSignals, List.mem_filterMap] at hr
    obtain ⟨i, -, heq⟩ := hr
    rcases hm : rollingMeanAt w closes i with _ | m <;>
      rcases hsd : rollingStdAt sq w closes i with _ | sd <;>
      rw [hm, hsd] at heq
    · exact Option.noConfusion heq
    · exact Option.noConfusion heq
    · exact Option.noConfusion heq
    · dsimp only at heq
      cases Option.some.inj heq
      exact ⟨(maskSignal_cases _ _).1, (maskSignal_cases _ _).2⟩
  · intro pf ps psig closes i hi
    rw [List.getD_eq_getElem?_getD, List.getElem?_eq_getElem hi, Option.getD_some]
    simp only [macdSignals, List.getElem_map, List.getElem_range]
    simp only [← Bool.decide_and]
    refine ⟨?_, (maskSignal_cases _ _).1⟩
    rw [(maskSignal_cases _ _).2]
    constructor
    · exact fun h => h.1
    · rintro ⟨hle, hlt, hprev⟩
      exact ⟨⟨hle, hlt, hprev⟩, fun hcon => absurd (lt_trans hlt hcon.2.1) (lt_irrefl _)⟩

/-- Counterexample to C5 as stated: with period 2, two standard
deviations and the constant closes `[5, 5]` the rolling deviation is 0,
so the surviving bar has close at or below the lower band (both equal 5),
yet its signal is -1 rather than the claimed +1, because the bar is also
at or above the upper band and the SELL assignment overwrites the BUY
assignment. -/
theorem bollinger_sell_overrides_buy :
    bollingerSignals ratSqrt 2 2 [5, 5] = [⟨5, 5, 0, 5, 5, -1⟩] ∧
      ((5:ℚ) ≤ 5 ∧ ¬ ((-1:ℤ) = 1)) := by
  with_unfolding_all decide

/-- Witness for C5 at one concrete surviving row per strategy. -/
theorem signal_semantics_witness :
    (((⟨2, 2, 3 / 2, 1⟩ : CrossRow).signal = 1 ↔
        (⟨2, 2, 3 / 2, 1⟩ : CrossRow).maSlow < (⟨2, 2, 3 / 2, 1⟩ : CrossRow).maFast) ∧
        ((⟨2, 2, 3 / 2, 1⟩ : CrossRow).signal = -1 ↔
          (⟨2, 2, 3 / 2, 1⟩ : CrossRow).maFast < (⟨2, 2, 3 / 2, 1⟩ : CrossRow).maSlow)) ∧
      (((⟨5, 5, 0, 5, 5, -1⟩ : BollRow).signal = -1 ↔
          (⟨5, 5, 0, 5, 5, -1⟩ : BollRow).upper ≤ (⟨5, 5, 0, 5, 5, -1⟩ : BollRow).close) ∧
        ((⟨5, 5, 0, 5, 5, -1⟩ : BollRow).signal = 1 ↔
          (⟨5, 5, 0, 5, 5, -1⟩ : BollRow).close ≤ (⟨5, 5, 0, 5, 5, -1⟩ : BollRow).lower ∧
            ¬ (⟨5, 5, 0, 5, 5, -1⟩ : BollRow).upper ≤ (⟨5, 5, 0, 5, 5, -1⟩ : BollRow).close)) ∧
      ((((macdSignals 2 4 3 [1, 2]).getD 1 ⟨0, 0, 0, 0, 0⟩).signal = 1 ↔
          1 ≤ 1 ∧
            (macdSignalLineOf 2 4 3 [1, 2]).getD 1 0 < (macdLineOf 2 4 [1, 2]).getD 1 0 ∧
            (macdLineOf 2 4 [1, 2]).getD (1 - 1) 0 ≤
              (macdSignalLineOf 2 4 3 [1, 2]).getD (1 - 1) 0) ∧
        (((macdSignals 2 4 3 [1, 2]).getD 1 ⟨0, 0, 0, 0, 0⟩).signal = -1 ↔
          1 ≤ 1 ∧
            (macdLineOf 2 4 [1, 2]).getD 1 0 < (macdSignalLineOf 2 4 3 [1, 2]).getD 1 0 ∧
            (macdSignalLineOf 2 4 3 [1, 2]).getD (1 - 1) 0 ≤
              (macdLineOf 2 4 [1, 2]).getD (1 - 1) 0)) :=
  ⟨signal_semantics_of_strategies.1 1 2 [1, 2] ⟨2, 2, 3 / 2, 1⟩ (by with_unfolding_all decide),
    signal_semantics_of_strategies.2.1 ratSqrt 2 2 [5, 5] ⟨5, 5, 0, 5, 5, -1⟩
      (by with_unfolding_all decide),
    signal_semantics_of_strategies.2.2 2 4 3 [1, 2] 1 (by with_unfolding_all decide)⟩

/-- Counterexample to C6 as stated: on the closes `[1, 2, 1, 3]` with
period 2 the code RSI at the last bar is `200/3` (simple rolling means of
gains and losses), while the Wilder-smoothed RSI of the claim is `250/3`;
the indicator is therefore not the Wilder-style RSI. -/
theorem rsi_differs_from_wilder :
    rsiAt 2 [1, 2, 1, 3] 3 = some (200 / 3) ∧
      wilderRsiAt 2 [1, 2, 1, 3] 3 = some (250 / 3) ∧
      ¬ ((200 / 3 : ℚ) = 250 / 3) := by
  with_unfolding_all decide

/-- C6 (amended): the RSI indicator equals `100 - 100 / (1 + RS)` where
`RS` is the ratio of the simple rolling-period means of gains and losses
(the bar-0 delta entering as zero gain and zero loss), not the
Wilder-smoothed averages, and on every surviving bar the signal is -1
exactly when this RSI strictly exceeds the overbought threshold and +1
exactly when it is strictly below the oversold threshold and not also
above the overbought one. -/
theorem rsi_formula_and_thresholds :
    (∀ period closes i g l, rollingMeanAt period (gains closes) i = some g →
        rollingMeanAt period (losses closes) i = some l → ¬ l = 0 →
        rsiAt period closes i = some (100 - 100 / (1 + g / l))) ∧
      (∀ period os ob closes, ∀ r ∈ rsiSignals period os ob closes,
        (r.signal = -1 ↔ ob < r.rsi) ∧ (r.signal = 1 ↔ r.rsi < os ∧ ¬ ob < r.rsi)) := by
  constructor
  · intro period closes i g l hg hl hlne
    rw [rsiAt, hg, hl]
    dsimp only
    rw [if_neg hlne]
  · intro period os ob closes r hr
    simp only [rsiSignals, List.mem_filterMap] at hr
    obtain ⟨i, -, heq⟩ := hr
    rcases hv : rsiAt period closes i with _ | v
    · rw [hv] at heq
      exact Option.noConfusion heq
    · rw [hv, Option.map_some'] at heq
      cases Option.some.inj heq
      exact ⟨(maskSignal_cases _ _).1, (maskSignal_cases _ _).2⟩

/-- Witness for C6: formula instance at period 2 over `[1, 2, 1, 3]`
(average gain and loss both one half at index 2, RSI 50) and threshold
instance at the surviving row with RSI 100. -/
theorem rsi_formula_witness :
    (rollingMeanAt 2 (gains [1, 2, 1, 3]) 2 = some (1 / 2) ∧
        rollingMeanAt 2 (losses [1, 2, 1, 3]) 2 = some (1 / 2) ∧
        ¬ ((1 / 2 : ℚ) = 0) ∧
        rsiAt 2 [1, 2, 1, 3] 2 = some (100 - 100 / (1 + (1 / 2 : ℚ) / (1 / 2)))) ∧
      (((⟨2, 100, -1⟩ : RsiRow).signal = -1 ↔ (70:ℚ) < (⟨2, 100, -1⟩ : RsiRow).rsi) ∧
        ((⟨2, 100, -1⟩ : RsiRow).signal = 1 ↔
          (⟨2, 100, -1⟩ : RsiRow).rsi < 30 ∧ ¬ (70:ℚ) < (⟨2, 100, -1⟩ : RsiRow).rsi)) :=
  ⟨⟨by with_unfolding_all decide, by with_unfolding_all decide, by with_unfolding_all decide,
      rsi_formula_and_thresholds.1 2 [1, 2, 1, 3] 2 (1 / 2) (1 / 2)
        (by with_unfolding_all decide) (by with_unfolding_all decide)
        (by with_unfolding_all decide)⟩,
    rsi_formula_and_thresholds.2 2 30 70 [1, 2, 1, 3] ⟨2, 100, -1⟩
      (by with_unfolding_all decide)⟩

end BTP
